import Mathlib

/-!
Verification development for the snix-redox system manager and the
virtio-fsd FUSE client.  The definitions below are shallow embeddings of
the Rust sources (`snix-redox/src/pathinfo.rs`, `store.rs`, `activate.rs`,
`system.rs`, and `virtio-fsd/src/scheme.rs`, `transport.rs`); theorems about
them follow after all definitions.  Machine integers (`u32`, `u64`) are
modelled as `Nat`; the single place where wraparound is observable in a
verified statement (the `u64` NAR-size accumulator) reduces mod `2 ^ 64`.
-/

set_option maxHeartbeats 1000000

namespace SnixRedox

/-- The nixbase32 alphabet used in store-path digests
    (`0123456789abcdfghijklmnpqrsvwxyz`). -/
def nixbase32Chars : List Char := "0123456789abcdfghijklmnpqrsvwxyz".toList

/-- Modelled from the spec: a store path is a string
    `<STORE_DIR>/<hash>-<name>` where `<hash>` is a fixed-length (32
    character) nixbase32 digest and the name is nonempty.  The `store_path`
    module of the vendored `nix-compat` crate (providing
    `StorePath::from_absolute_path`, used by `store_path_hash` in
    `pathinfo.rs`) is not under `src/`; this parser follows the spec's
    description of the store-path shape and returns the digest component on
    success, `none` on a syntactically invalid path. -/
def parseStorePathHash (s : String) : Option String :=
  let cs := s.toList
  let pre := ("/nix/store/").toList
  if cs.take pre.length = pre then
    let rest := cs.drop pre.length
    let h := rest.take 32
    let t := rest.drop 32
    if h.length = 32 ∧ h.all (fun c => c ∈ nixbase32Chars) ∧ t.take 1 = ['-'] ∧ 2 ≤ t.length
    then some (String.mk h) else none
  else none

/-- Per-path metadata, `PathInfo` in `pathinfo.rs`.  `nar_size` is a `u64`
    in the source, modelled as `Nat`. -/
structure PathInfo where
  store_path : String
  nar_hash : String
  nar_size : Nat
  references : List String
  deriver : Option String
  registration_time : String
  signatures : List String
  deriving DecidableEq, Repr

/-- The filesystem-backed pathinfo database (`PathInfoDb` in
    `pathinfo.rs`): one JSON file per registered path, stored as
    `<VAR>/pathinfo/<hash>.json` and keyed by the nixbase32 digest of the
    store path.  The directory is modelled as an association list from
    digest to the file's `PathInfo` content. -/
abbrev PathInfoDb := List (String × PathInfo)

/-- `PathInfoDb::get`: compute the info file for the path (failing on an
    invalid store path, as `info_file`/`store_path_hash` do) and return its
    content, or `none` when the file does not exist. -/
def dbGet (db : PathInfoDb) (store_path : String) : Except String (Option PathInfo) :=
  match parseStorePathHash store_path with
  | none => .error ("invalid store path: " ++ store_path)
  | some h => .ok (db.lookup h)

/-- `PathInfoDb::register`: write the JSON file for `info.store_path`,
    overwriting any existing entry with the same digest. -/
def dbRegister (db : PathInfoDb) (info : PathInfo) : Except String PathInfoDb :=
  match parseStorePathHash info.store_path with
  | none => .error ("invalid store path: " ++ info.store_path)
  | some h => .ok ((h, info) :: db.filter (fun e => e.1 != h))

/-- `PathInfoDb::is_registered`: existence of the info file; an invalid
    store path reports `false` (`unwrap_or(false)` in the source). -/
def dbIsRegistered (db : PathInfoDb) (store_path : String) : Bool :=
  match parseStorePathHash store_path with
  | none => false
  | some h => (db.lookup h).isSome

/-- `PathInfoDb::delete`: remove the info file if it exists; succeeds when
    the path is not registered. -/
def dbDelete (db : PathInfoDb) (store_path : String) : Except String PathInfoDb :=
  match parseStorePathHash store_path with
  | none => .error ("invalid store path: " ++ store_path)
  | some h => .ok (db.filter (fun e => e.1 != h))

/-- `PathInfoDb::all_paths_set`: the set of `store_path` fields of all
    registered entries (`list_paths` collected into a `BTreeSet`). -/
def allPathsSet (db : PathInfoDb) : Finset String :=
  (db.map (fun e => e.2.store_path)).toFinset

-- ═══════════ closure computation (`compute_closure` in `store.rs`) ═══════════

/-- Modulus of the `u64` NAR-size accumulator. -/
def U64 : Nat := 2 ^ 64

/-- The transitive closure of a store path (`Closure` in `store.rs`): the
    visited paths (a `BTreeSet`, modelled as a `Finset`) and the total NAR
    size (a `u64` accumulator). -/
structure Closure where
  paths : Finset String
  total_nar_size : Nat
  deriving DecidableEq

/-- The BFS loop of `compute_closure`, with explicit fuel (the Rust loop
    has no fuel; `closureLoop_isSome_of_phi_lt` below shows the static
    bound `closureFuel` never runs out, which is the loop's termination
    argument).  Pops the queue front; skips visited paths; fails when the
    popped path's info is absent or its syntax invalid; otherwise adds its
    NAR size, marks it visited, and enqueues its unvisited references. -/
def closureLoop (db : PathInfoDb) :
    Nat → Finset String → List String → Nat → Option (Except String Closure)
  | 0, _, _, _ => none
  | _ + 1, visited, [], total => some (.ok ⟨visited, total⟩)
  | fuel + 1, visited, path :: rest, total =>
    if path ∈ visited then closureLoop db fuel visited rest total
    else
      match dbGet db path with
      | .error e => some (.error e)
      | .ok none => some (.error ("path not registered: " ++ path))
      | .ok (some info) =>
        closureLoop db fuel (insert path visited)
          (rest ++ info.references.filter (fun r => !(decide (r ∈ insert path visited))))
          ((total + info.nar_size) % U64)

/-- Every path that can ever be enqueued by the BFS: the root plus every
    reference appearing in some database entry. -/
def mentioned (db : PathInfoDb) (root : String) : Finset String :=
  insert root (db.foldr (fun e acc => e.2.references.toFinset ∪ acc) ∅)

/-- Weight of a path in the termination potential: one for the visit plus
    one per reference it can enqueue. -/
def pathWeight (db : PathInfoDb) (q : String) : Nat :=
  1 + (match dbGet db q with
       | .ok (some info) => info.references.length
       | _ => 0)

/-- Termination potential of a BFS state: queue length plus the weights of
    all enqueueable-but-unvisited paths.  Strictly decreases at every loop
    iteration. -/
def phi (db : PathInfoDb) (root : String) (visited : Finset String)
    (queue : List String) : Nat :=
  queue.length + ∑ q ∈ mentioned db root \ visited, pathWeight db q

/-- Fuel that provably suffices for the BFS from `root`. -/
def closureFuel (db : PathInfoDb) (root : String) : Nat :=
  2 + ∑ q ∈ mentioned db root, pathWeight db q

/-- `compute_closure` in `store.rs`: BFS over references starting at
    `root`.  The fuelled loop is run with the sufficient fuel; the default
    branch is unreachable (theorem `closure_terminates`). -/
def compute_closure (db : PathInfoDb) (root : String) : Except String Closure :=
  (closureLoop db (closureFuel db root) ∅ [root] 0).getD
    (.error "internal: out of fuel")

/-- Reachability through `references`, starting from `root`, over the
    pathinfo database: the specification-side meaning of "the transitive
    closure of a store path". -/
inductive Reaches (db : PathInfoDb) (root : String) : String → Prop
  | refl : Reaches db root root
  | step {q r : String} (info : PathInfo) : Reaches db root q →
      dbGet db q = .ok (some info) → r ∈ info.references → Reaches db root r

/-- The NAR size recorded for a path (0 when unregistered); used to state
    what the closure's size accumulator sums. -/
def narOf (db : PathInfoDb) (q : String) : Nat :=
  match dbGet db q with
  | .ok (some info) => info.nar_size
  | _ => 0

-- ═══════════ GC roots and garbage collection (`store.rs`) ═══════════

/-- A GC root entry (`GcRoot` in `store.rs`): a named symlink to a store
    path; the list passed around below models `list_roots()` (sorted by
    name). -/
structure GcRoot where
  name : String
  target : String
  deriving DecidableEq

/-- `GcRoots::compute_live_set`: union of the closures of all root
    targets.  Dangling roots (targets that are not registered) and roots
    whose closure computation fails are skipped with a warning. -/
def compute_live_set (db : PathInfoDb) (roots : List GcRoot) : Finset String :=
  roots.foldl
    (fun live root =>
      if dbIsRegistered db root.target = false then live
      else
        match compute_closure db root.target with
        | .ok c => live ∪ c.paths
        | .error _ => live)
    ∅

/-- Statistics from a GC run (`GcStats` in `store.rs`); the `u32`/`u64`
    counters are modelled as `Nat`. -/
structure GcStats where
  paths_deleted : Nat
  bytes_freed : Nat
  paths_kept : Nat
  deriving DecidableEq, Repr

/-- The mutable state `garbage_collect` operates on: the pathinfo database
    and the on-disk store-path bodies (path → recursive size). -/
structure StoreFs where
  db : PathInfoDb
  disk : List (String × Nat)
  deriving DecidableEq

/-- `path_size(Path::new(path)).unwrap_or(0)`: recursive on-disk size,
    0 when the body is missing. -/
def diskSize (disk : List (String × Nat)) (p : String) : Nat :=
  (disk.lookup p).getD 0

/-- One iteration of the GC sweep over a dead path: measure its size, and
    unless this is a dry run remove the on-disk body and then the pathinfo
    entry; the path counts as deleted (and its size as freed) either
    way. -/
def gcSweepStep (dry_run : Bool) (acc : GcStats × StoreFs) (path : String) :
    Except String (GcStats × StoreFs) := do
  let size := diskSize acc.2.disk path
  let fs ←
    if dry_run then pure acc.2
    else do
      let disk := acc.2.disk.filter (fun e => e.1 != path)
      let db ← dbDelete acc.2.db path
      pure (⟨db, disk⟩ : StoreFs)
  pure (⟨acc.1.paths_deleted + 1, acc.1.bytes_freed + size, acc.1.paths_kept⟩, fs)

/-- `garbage_collect` in `store.rs`: mark-and-sweep.  Enumerate all
    registered paths, compute the live set from the roots, and delete the
    dead set (iterated in sorted order, as the `BTreeSet` iteration
    does). -/
def garbage_collect (s : StoreFs) (roots : List GcRoot) (dry_run : Bool) :
    Except String (GcStats × StoreFs) :=
  let all_paths := allPathsSet s.db
  let live_set := compute_live_set s.db roots
  let dead_set := all_paths \ live_set
  let stats : GcStats := ⟨0, 0, live_set.card⟩
  if dead_set = ∅ then .ok (stats, s)
  else (dead_set.sort (· ≤ ·)).foldlM (gcSweepStep dry_run) (stats, s)

-- ═══════════ system manifest model (`system.rs`) ═══════════

/-- `GenerationInfo` in `system.rs`; `id` is a `u32`, modelled as `Nat`. -/
structure GenerationInfo where
  id : Nat
  build_hash : String
  description : String
  timestamp : String
  deriving DecidableEq, Repr

/-- `Package` in `system.rs`: `store_path` may be empty (unmanaged). -/
structure Package where
  name : String
  version : String
  store_path : String
  deriving DecidableEq, Repr

/-- `User` in `system.rs`. -/
structure User where
  uid : Nat
  gid : Nat
  home : String
  shell : String
  deriving DecidableEq, Repr

/-- `Services` in `system.rs`. -/
structure Services where
  init_scripts : List String
  startup_script : String
  deriving DecidableEq, Repr

/-- `FileInfo` in `system.rs`. -/
structure FileInfo where
  blake3 : String
  size : Nat
  mode : String
  deriving DecidableEq, Repr

/-- The system manifest (`Manifest` in `system.rs`), restricted to the
    fields read by the verified operations (`plan`, `next_generation_id`,
    `switch`).  The `BTreeMap` fields `users` and `files` are association
    lists; their representation invariant (strictly sorted keys) is taken
    as a hypothesis where it matters.  The remaining source fields
    (`manifest_version`, `system`, `configuration`, `drivers`, `groups`,
    `system_profile`) are not consulted by these operations and are
    omitted. -/
structure Manifest where
  generation : GenerationInfo
  packages : List Package
  users : List (String × User)
  services : Services
  files : List (String × FileInfo)
  deriving DecidableEq

-- ═══════════ activation plan (`plan` in `activate.rs`) ═══════════

/-- The package `BTreeMap` that `plan` collects from a package vector,
    keyed by name: a later duplicate overwrites an earlier one. -/
def pkgMap (ps : List Package) (n : String) : Option Package :=
  ps.reverse.find? (fun p => p.name == n)

/-- That `BTreeMap`'s key set in iteration order: sorted, duplicate
    free. -/
def pkgKeys (ps : List Package) : List String :=
  ((ps.map Package.name).toFinset).sort (· ≤ ·)

/-- `PackageChange` in `activate.rs`. -/
structure PackageChange where
  name : String
  old_version : String
  new_version : String
  old_store_path : String
  new_store_path : String
  deriving DecidableEq, Repr

/-- `ConfigChange` in `activate.rs`. -/
structure ConfigChange where
  path : String
  old_hash : String
  new_hash : String
  deriving DecidableEq, Repr

/-- The change record `plan`'s package loop emits for a name in the new
    map: present in both maps and differing in version or store path. -/
def pkgChange (old new : List Package) (n : String) : Option PackageChange :=
  match pkgMap old n, pkgMap new n with
  | some op, some np =>
    if op.version != np.version || op.store_path != np.store_path then
      some ⟨n, op.version, np.version, op.store_path, np.store_path⟩
    else none
  | _, _ => none

def packages_added (old new : List Package) : List String :=
  (pkgKeys new).filter (fun n => (pkgMap old n).isNone)

def packages_removed (old new : List Package) : List String :=
  (pkgKeys old).filter (fun n => (pkgMap new n).isNone)

def packages_changed (old new : List Package) : List PackageChange :=
  (pkgKeys new).filterMap (pkgChange old new)

/-- The change record `diff_config_files` emits for a path of the new
    inventory. -/
def configChange (old new : List (String × FileInfo)) (p : String) : Option ConfigChange :=
  match old.lookup p, new.lookup p with
  | some oi, some ni =>
    if oi.blake3 != ni.blake3 then some ⟨p, oi.blake3, ni.blake3⟩ else none
  | _, _ => none

def config_files_added (old new : List (String × FileInfo)) : List String :=
  (new.map Prod.fst).filter (fun p => (old.lookup p).isNone)

def config_files_removed (old new : List (String × FileInfo)) : List String :=
  (old.map Prod.fst).filter (fun p => (new.lookup p).isNone)

def config_files_changed (old new : List (String × FileInfo)) : List ConfigChange :=
  (new.map Prod.fst).filterMap (configChange old new)

/-- `diff_config_files` in `activate.rs`: `(added, removed, changed)`. -/
def diff_config_files (old new : List (String × FileInfo)) :
    List String × List String × List ConfigChange :=
  (config_files_added old new, config_files_removed old new,
   config_files_changed old new)

/-- The per-user change test of `diff_users`: any of uid, gid, home or
    shell differs. -/
def userDiffers (ou nu : User) : Bool :=
  ou.uid != nu.uid || ou.gid != nu.gid || ou.home != nu.home || ou.shell != nu.shell

def userChanged (old new : List (String × User)) (n : String) : Bool :=
  match old.lookup n, new.lookup n with
  | some ou, some nu => userDiffers ou nu
  | _, _ => false

def users_added (old new : List (String × User)) : List String :=
  (new.map Prod.fst).filter (fun n => (old.lookup n).isNone)

def users_removed (old new : List (String × User)) : List String :=
  (old.map Prod.fst).filter (fun n => (new.lookup n).isNone)

def users_changed (old new : List (String × User)) : List String :=
  (new.map Prod.fst).filter (userChanged old new)

/-- `diff_users` in `activate.rs`: `(added, removed, changed)`. -/
def diff_users (old new : List (String × User)) :
    List String × List String × List String :=
  (users_added old new, users_removed old new, users_changed old new)

/-- The init-script `BTreeSet`s the service diff builds, in iteration
    (sorted) order. -/
def svcSet (scripts : List String) : List String :=
  scripts.toFinset.sort (· ≤ ·)

def services_added (old new : Services) : List String :=
  (svcSet new.init_scripts).filter
    (fun s => !(decide (s ∈ old.init_scripts)))

def services_removed (old new : Services) : List String :=
  (svcSet old.init_scripts).filter
    (fun s => !(decide (s ∈ new.init_scripts)))

/-- `count_profile_binaries` in `activate.rs`: number of regular files
    under each package's `bin/` directory.  The filesystem is abstracted
    by `fsBins`, mapping a store path to the regular-file names of its
    `bin/` directory (empty when `bin/` is missing or not a
    directory). -/
def count_profile_binaries (fsBins : String → List String)
    (packages : List Package) : Nat :=
  packages.foldl
    (fun c pkg =>
      if pkg.store_path.isEmpty then c else c + (fsBins pkg.store_path).length)
    0

/-- `ActivationPlan` in `activate.rs`. -/
structure ActivationPlan where
  packages_added : List String
  packages_removed : List String
  packages_changed : List PackageChange
  config_files_added : List String
  config_files_removed : List String
  config_files_changed : List ConfigChange
  services_added : List String
  services_removed : List String
  profile_needs_rebuild : Bool
  profile_binary_count : Nat
  users_added : List String
  users_removed : List String
  users_changed : List String

/-- `plan` in `activate.rs`: diff the two manifests facet by facet. -/
def plan (fsBins : String → List String) (old new : Manifest) : ActivationPlan :=
  let pa := packages_added old.packages new.packages
  let pr := packages_removed old.packages new.packages
  let pc := packages_changed old.packages new.packages
  { packages_added := pa
    packages_removed := pr
    packages_changed := pc
    config_files_added := config_files_added old.files new.files
    config_files_removed := config_files_removed old.files new.files
    config_files_changed := config_files_changed old.files new.files
    services_added := services_added old.services new.services
    services_removed := services_removed old.services new.services
    profile_needs_rebuild := !pa.isEmpty || !pr.isEmpty || !pc.isEmpty
    profile_binary_count := count_profile_binaries fsBins new.packages
    users_added := users_added old.users new.users
    users_removed := users_removed old.users new.users
    users_changed := users_changed old.users new.users }

/-- Exchanging the old/new fields of a package change record. -/
def PackageChange.exchange (c : PackageChange) : PackageChange :=
  ⟨c.name, c.new_version, c.old_version, c.new_store_path, c.old_store_path⟩

/-- Exchanging the old/new fields of a config change record. -/
def ConfigChange.exchange (c : ConfigChange) : ConfigChange :=
  ⟨c.path, c.new_hash, c.old_hash⟩

-- ═══════════ generations and switch (`system.rs`) ═══════════

/-- The state `switch` manipulates: `gens` models the scan of the
    generations directory (the id of each subdirectory whose
    `manifest.json` parses, with that manifest), `current` the manifest
    at the current-manifest path. -/
structure SystemState where
  gens : List (Nat × Manifest)
  current : Manifest

/-- `next_generation_id` in `system.rs`: one more than the highest id
    among the stored generations and the current manifest (`u32` in the
    source, modelled as `Nat`). -/
def next_generation_id (gens : List (Nat × Manifest)) (current : Manifest) : Nat :=
  let max_stored := (gens.map Prod.fst).foldr max 0
  max max_stored current.generation.id + 1

/-- The manifest bookkeeping of a non-dry-run `system::switch`: assign
    the next generation id (with fresh timestamp and optional
    description override), archive the current manifest under its own id
    if not already stored, store the new manifest under the new id, and
    install it as the current manifest.  The subsequent `activate` call
    touches neither the generation store nor the current-manifest
    file. -/
def switch (s : SystemState) (new_manifest : Manifest) (description : Option String)
    (now : String) : SystemState :=
  let next_id := next_generation_id s.gens s.current
  let gen' : GenerationInfo :=
    { id := next_id
      build_hash := new_manifest.generation.build_hash
      description := description.getD new_manifest.generation.description
      timestamp := now }
  let newm := { new_manifest with generation := gen' }
  let gens1 :=
    if (s.gens.lookup s.current.generation.id).isSome then s.gens
    else (s.current.generation.id, s.current) :: s.gens
  let gens2 := (next_id, newm) :: gens1.filter (fun e => e.1 != next_id)
  { gens := gens2, current := newm }

-- ═══════════ atomic profile swap (`atomic_profile_swap` in `activate.rs`) ═══════════

/-- A profile `bin/` directory: symlink name → target. -/
abbrev ProfileDir := List (String × String)

/-- `populate_profile_dir` in `activate.rs`: for every package with a
    non-empty store path, one symlink per regular file of its `bin/`
    directory, pointing at that file; a later package overwrites an
    earlier link of the same name (last wins).  Returns the directory and
    the count of links created. -/
def populate_profile_dir (fsBins : String → List String)
    (packages : List Package) : ProfileDir × Nat :=
  packages.foldl
    (fun acc pkg =>
      if pkg.store_path.isEmpty then acc
      else
        (fsBins pkg.store_path).foldl
          (fun acc2 name =>
            ((name, pkg.store_path ++ "/bin/" ++ name)
                :: acc2.1.filter (fun e => e.1 != name),
             acc2.2 + 1))
          acc)
    ([], 0)

/-- The four filesystem locations `atomic_profile_swap` touches:
    `<STAGING>/bin`, `<PROFILE>/bin.new`, `<PROFILE>/bin.old` and
    `<PROFILE>/bin` (`none` = absent). -/
structure SwapState where
  staging : Option ProfileDir
  bin_new : Option ProfileDir
  bin_old : Option ProfileDir
  bin : Option ProfileDir
  deriving DecidableEq

/-- `atomic_profile_swap` in `activate.rs`.  `final_rename_fails` injects
    a failure of step 4 (the `bin.new → bin` rename); all other renames
    and removals succeed in this model.  Sequence: clean stale
    staging/`bin.new`/`bin.old`; build the new profile in staging; rename
    staging → `bin.new`; if a profile exists rename it to `bin.old`;
    rename `bin.new` → `bin`.  On success, remove `bin.old` and staging.
    On failure of the final rename, rename `bin.old` back to `bin` if one
    was moved out, remove `bin.new` and staging, and return the error. -/
def atomic_profile_swap (fsBins : String → List String) (packages : List Package)
    (final_rename_fails : Bool) (s : SwapState) :
    Except String Nat × SwapState :=
  -- clean up any leftover staging from a previous failed activation
  let s1 : SwapState := { s with staging := none, bin_new := none, bin_old := none }
  -- step 1: build the new profile in staging
  let built := populate_profile_dir fsBins packages
  let s2 := { s1 with staging := some built.1 }
  -- step 2: move staging → bin.new
  let s3 := { s2 with staging := none, bin_new := s2.staging }
  -- step 3: move current bin → bin.old (if it exists)
  let had_old := s3.bin.isSome
  let s4 := if had_old then { s3 with bin := none, bin_old := s3.bin } else s3
  -- step 4: move bin.new → bin (the atomic swap)
  if final_rename_fails then
    let s5 := if had_old then { s4 with bin := s4.bin_old, bin_old := none } else s4
    (.error "atomic swap failed", { s5 with bin_new := none, staging := none })
  else
    let s5 := { s4 with bin := s4.bin_new, bin_new := none }
    let s6 := if had_old then { s5 with bin_old := none } else s5
    (.ok built.2, { s6 with staging := none })

-- ═══════════ scheme adapter (`scheme.rs` of virtio-fsd) ═══════════

/-- A per-open record (`Handle` in `scheme.rs`); the cached directory
    listing (`dir_entries`), irrelevant to the verified operations, is
    omitted. -/
structure Handle where
  nodeid : Nat
  fh : Nat
  is_dir : Bool
  writable : Bool
  path : String
  size : Nat
  mode : Nat
  deriving DecidableEq, Repr

/-- `path.trim_matches('/')`: strip every leading and trailing slash. -/
def trimSlashes (s : String) : String :=
  String.mk (((s.toList.dropWhile (· == '/')).reverse.dropWhile (· == '/')).reverse)

/-- The starting directory `openat` resolves (`base_path` in the source):
    the path is first trimmed of slashes; if a handle exists for `dirfd`
    and the (trimmed) path starts with a slash (`path.starts_with('/')`,
    here: its first character is `'/'`) the cached path is dropped,
    otherwise the handle's cached path is used; with no handle the base
    is empty. -/
def openat_base_path (handles : List (Nat × Handle)) (dirfd : Nat)
    (path : String) : String :=
  let p := trimSlashes path
  match handles.lookup dirfd with
  | some h => if p.toList.take 1 = ['/'] then "" else h.path
  | none => ""

/-- The full path `openat` goes on to resolve (`full_path` in the
    source; emptiness tests are `is_empty()` in the source). -/
def openat_full_path (handles : List (Nat × Handle)) (dirfd : Nat)
    (path : String) : String :=
  let p := trimSlashes path
  let base := openat_base_path handles dirfd path
  if base = "" then p
  else if p = "" then base
  else base ++ "/" ++ p

/-- Redox errno values used by the scheme adapter. -/
def EBADF : Nat := 9
def EISDIR : Nat := 21
def EIO : Nat := 5

/-- `read` in `scheme.rs`: look up the handle (bad-fd if absent), reject
    directories, ask the FUSE session for up to `buf.len()` bytes at
    `offset`, and copy `min(data.len(), buf.len())` bytes into the front
    of the caller's buffer, returning that count.  The FUSE session is
    abstracted by `sess_read nodeid fh offset size` (`none` = session
    error, mapped to EIO); bytes are `Nat`s. -/
def scheme_read (handles : List (Nat × Handle)) (id : Nat) (buf : List Nat)
    (offset : Nat) (sess_read : Nat → Nat → Nat → Nat → Option (List Nat)) :
    Except Nat (Nat × List Nat) :=
  match handles.lookup id with
  | none => .error EBADF
  | some h =>
    if h.is_dir then .error EISDIR
    else
      match sess_read h.nodeid h.fh offset buf.length with
      | none => .error EIO
      | some data =>
        let copy_len := min data.length buf.length
        .ok (copy_len, data.take copy_len ++ buf.drop copy_len)

-- ═══════════ virtqueue transport (`transport.rs` of virtio-fsd) ═══════════

/-- `FuseTransportError` in `transport.rs`. -/
inductive FuseTransportError where
  | DmaAlloc : FuseTransportError
  | ShortResponse : Nat → FuseTransportError
  | FuseError : Int → FuseTransportError
  | UnexpectedSize : FuseTransportError
  deriving DecidableEq, Repr

/-- `size_of::<FuseOutHeader>()`: 16 bytes (len u32, error i32,
    unique u64). -/
def FUSE_OUT_HEADER_SIZE : Nat := 16

/-- The device side of one virtqueue round trip: the number of bytes the
    device reports written, and the content of the device-writable
    response buffer (`resp_dma`, allocated with length `max_response`)
    after completion. -/
structure FuseDevice where
  written : Nat
  buf : List Nat
  deriving DecidableEq

/-- `fuse_request_inner` in `transport.rs`: submit the two-descriptor
    chain, block for the written count, fail with `ShortResponse` when it
    is smaller than a response header, otherwise return exactly the bytes
    the device wrote (`resp_dma[..written]`).  The outer `Option` models
    the panic of the slice `&resp_dma[..written]` when the device reports
    more bytes than the buffer holds (`none` = panic); DMA allocation is
    assumed to succeed. -/
def fuse_request_inner (request : List Nat) (dev : FuseDevice) :
    Option (Except FuseTransportError (List Nat)) :=
  let _ := request
  if dev.written < FUSE_OUT_HEADER_SIZE then
    some (.error (.ShortResponse dev.written))
  else if dev.written ≤ dev.buf.length then
    some (.ok (dev.buf.take dev.written))
  else none

-- ═══════════ sample values (concrete instances for witnesses) ═══════════

/-- A syntactically valid store path (digest `1b9j…rn4r`, name `a-1.0`). -/
def samplePathA : String := "/nix/store/1b9jydsiygi6jhlz2dxbrxi6b4m1rn4r-a-1.0"

/-- The digest component of `samplePathA`. -/
def sampleHashA : String := "1b9jydsiygi6jhlz2dxbrxi6b4m1rn4r"

/-- A registered `PathInfo` for `samplePathA` with no references. -/
def sampleInfoA : PathInfo :=
  ⟨samplePathA, "deadbeef", 1000, [], none, "2026-01-01T00:00:00Z", []⟩

/-- A one-entry database registering `samplePathA`. -/
def sampleDb : PathInfoDb := [(sampleHashA, sampleInfoA)]

/-- A store state with one registered path and its on-disk body. -/
def sampleFs : StoreFs := ⟨sampleDb, [(samplePathA, 1000)]⟩

/-- A small manifest (one package, one config file, one user, one
    service). -/
def sampleManifestA : Manifest :=
  { generation := ⟨1, "", "", ""⟩
    packages := [⟨"ion", "1.0", samplePathA⟩]
    users := [("root", ⟨0, 0, "/root", "/bin/ion"⟩)]
    services := ⟨["netd"], "/etc/startup"⟩
    files := [("etc/hostname", ⟨"aa11", 6, "644"⟩)] }

/-- A second manifest differing from `sampleManifestA` in the package
    set, the config-file hash, the user shell, and the service set. -/
def sampleManifestB : Manifest :=
  { generation := ⟨2, "", "", ""⟩
    packages := [⟨"ion", "1.1", samplePathA⟩, ⟨"rg", "14.0", ""⟩]
    users := [("root", ⟨0, 0, "/root", "/bin/sh"⟩)]
    services := ⟨["sshd"], "/etc/startup"⟩
    files := [("etc/hostname", ⟨"bb22", 7, "644"⟩)] }

end SnixRedox

namespace SnixRedox

-- ═══════════ helper lemmas on association lists ═══════════

theorem lookup_mem {α β : Type} [DecidableEq α] {l : List (α × β)} {k : α} {v : β}
    (h : l.lookup k = some v) : (k, v) ∈ l := by
  induction l with
  | nil => simp [List.lookup] at h
  | cons e tl ih =>
    rw [List.lookup] at h
    by_cases hk : k = e.1
    · subst hk
      simp at h
      subst h
      exact List.mem_cons_self _ _
    · simp [beq_eq_false_iff_ne.mpr hk] at h
      exact List.mem_cons_of_mem _ (ih h)

theorem lookup_filter_ne_self {α β : Type} [DecidableEq α] (l : List (α × β)) (k : α) :
    (l.filter (fun e => e.1 != k)).lookup k = none := by
  induction l with
  | nil => simp
  | cons e tl ih =>
    rw [List.filter_cons]
    by_cases hk : e.1 = k
    · simp [hk, ih]
    · have hb : (e.1 != k) = true := bne_iff_ne.mpr hk
      rw [hb, if_pos rfl, List.lookup]
      simp [beq_eq_false_iff_ne.mpr (Ne.symm hk), ih]

theorem filter_ne_idem {α β : Type} [DecidableEq α] (l : List (α × β)) (k : α) :
    (l.filter (fun e => e.1 != k)).filter (fun e => e.1 != k)
      = l.filter (fun e => e.1 != k) :=
  List.filter_eq_self.mpr (fun _ ha => (List.mem_filter.mp ha).2)

theorem lookup_isSome_iff_mem_keys {α β : Type} [DecidableEq α] (l : List (α × β)) (k : α) :
    (l.lookup k).isSome = true ↔ k ∈ l.map Prod.fst := by
  induction l with
  | nil => simp [List.lookup]
  | cons e tl ih =>
    rw [List.lookup]
    by_cases hk : k = e.1
    · subst hk; simp
    · simp [beq_eq_false_iff_ne.mpr hk, ih, hk]

theorem lookup_filter_none {α β : Type} [DecidableEq α] {l : List (α × β)} {k : α}
    (p : α × β → Bool) (h : l.lookup k = none) : (l.filter p).lookup k = none := by
  induction l with
  | nil => simp
  | cons e tl ih =>
    rw [List.lookup] at h
    by_cases hk : k = e.1
    · subst hk; simp at h
    · simp only [beq_eq_false_iff_ne.mpr hk] at h
      rw [List.filter]
      cases p e with
      | false => exact ih h
      | true =>
        rw [List.lookup]
        simp [beq_eq_false_iff_ne.mpr hk, ih h]

-- ═══════════ closure loop: termination and invariants ═══════════

theorem mem_mentioned_of_ref {db : PathInfoDb} {root : String} {e : String × PathInfo}
    (he : e ∈ db) {r : String} (hr : r ∈ e.2.references) : r ∈ mentioned db root := by
  unfold mentioned
  apply Finset.mem_insert_of_mem
  induction db with
  | nil => cases he
  | cons d tl ih =>
    simp only [List.foldr]
    rcases List.mem_cons.mp he with rfl | htl
    · exact Finset.mem_union_left _ (List.mem_toFinset.mpr hr)
    · exact Finset.mem_union_right _ (ih htl)

theorem dbGet_ok_some {db : PathInfoDb} {p : String} {info : PathInfo}
    (h : dbGet db p = .ok (some info)) :
    ∃ hsh, parseStorePathHash p = some hsh ∧ db.lookup hsh = some info := by
  unfold dbGet at h
  cases hp : parseStorePathHash p with
  | none => rw [hp] at h; cases h
  | some hsh =>
    rw [hp] at h
    simp only [Except.ok.injEq] at h
    exact ⟨hsh, rfl, h⟩

theorem mem_mentioned_of_get {db : PathInfoDb} {root p : String} {info : PathInfo}
    (h : dbGet db p = .ok (some info)) {r : String} (hr : r ∈ info.references) :
    r ∈ mentioned db root := by
  obtain ⟨hsh, _, hlk⟩ := dbGet_ok_some h
  exact mem_mentioned_of_ref (lookup_mem hlk) hr

theorem pathWeight_of_get {db : PathInfoDb} {p : String} {info : PathInfo}
    (h : dbGet db p = .ok (some info)) :
    pathWeight db p = 1 + info.references.length := by
  simp [pathWeight, h]

theorem sdiff_insert_sum {db : PathInfoDb} {root p : String} (visited : Finset String)
    (hpm : p ∈ mentioned db root) (hv : p ∉ visited) :
    (∑ q ∈ mentioned db root \ insert p visited, pathWeight db q) + pathWeight db p
      = ∑ q ∈ mentioned db root \ visited, pathWeight db q := by
  have hsd : mentioned db root \ insert p visited
      = (mentioned db root \ visited).erase p := by
    ext q
    simp only [Finset.mem_sdiff, Finset.mem_insert, Finset.mem_erase]
    tauto
  rw [hsd]
  exact Finset.sum_erase_add _ _ (Finset.mem_sdiff.mpr ⟨hpm, hv⟩)

theorem closureLoop_isSome_of_phi_lt (db : PathInfoDb) (root : String) :
    ∀ fuel visited queue total, (∀ q ∈ queue, q ∈ mentioned db root) →
      phi db root visited queue < fuel →
      (closureLoop db fuel visited queue total).isSome := by
  intro fuel
  induction fuel with
  | zero => intro visited queue total _ h; exact absurd h (Nat.not_lt_zero _)
  | succ fuel ih =>
    intro visited queue total hq hphi
    match queue with
    | [] => simp [closureLoop]
    | p :: rest =>
      rw [closureLoop]
      by_cases hv : p ∈ visited
      · rw [if_pos hv]
        apply ih _ _ _ (fun q hq' => hq q (List.mem_cons_of_mem _ hq'))
        have h1 : phi db root visited (p :: rest) = phi db root visited rest + 1 := by
          simp only [phi, List.length_cons]; omega
        omega
      · rw [if_neg hv]
        cases hget : dbGet db p with
        | error e => simp
        | ok oinfo =>
          cases oinfo with
          | none => simp
          | some info =>
            simp only []
            apply ih
            · intro q hq'
              rcases List.mem_append.mp hq' with h1 | h2
              · exact hq q (List.mem_cons_of_mem _ h1)
              · exact mem_mentioned_of_get hget (List.mem_of_mem_filter h2)
            · have hpm : p ∈ mentioned db root := hq p (List.mem_cons_self _ _)
              have hsum := sdiff_insert_sum visited hpm hv
              have hw := pathWeight_of_get hget
              have hflen :
                  (info.references.filter
                    (fun r => !(decide (r ∈ insert p visited)))).length
                    ≤ info.references.length := List.length_filter_le _ _
              have h1 : phi db root visited (p :: rest)
                  = rest.length + 1
                    + ∑ q ∈ mentioned db root \ visited, pathWeight db q := by
                simp only [phi, List.length_cons]
              have h2 : phi db root (insert p visited)
                    (rest ++ info.references.filter
                      (fun r => !(decide (r ∈ insert p visited))))
                  = rest.length
                    + (info.references.filter
                        (fun r => !(decide (r ∈ insert p visited)))).length
                    + ∑ q ∈ mentioned db root \ insert p visited, pathWeight db q := by
                simp [phi, List.length_append]
              omega

theorem dbGet_error {db : PathInfoDb} {p : String} {e : String}
    (h : dbGet db p = .error e) :
    parseStorePathHash p = none ∧ e = "invalid store path: " ++ p := by
  unfold dbGet at h
  cases hp : parseStorePathHash p with
  | none =>
    rw [hp] at h
    exact ⟨rfl, (Except.error.inj h).symm⟩
  | some hsh => rw [hp] at h; cases h

theorem dbGet_ok_none {db : PathInfoDb} {p : String}
    (h : dbGet db p = .ok none) :
    ∃ hsh, parseStorePathHash p = some hsh ∧ db.lookup hsh = none := by
  unfold dbGet at h
  cases hp : parseStorePathHash p with
  | none => rw [hp] at h; cases h
  | some hsh =>
    rw [hp] at h
    exact ⟨hsh, rfl, Except.ok.inj h⟩

theorem isRegistered_of_get {db : PathInfoDb} {p : String} {info : PathInfo}
    (h : dbGet db p = .ok (some info)) : dbIsRegistered db p = true := by
  obtain ⟨hsh, hp, hlk⟩ := dbGet_ok_some h
  simp [dbIsRegistered, hp, hlk]

/-- Full functional invariant of the BFS loop: either the fuel runs out,
    or it fails naming a reachable unregistered path, or it succeeds with
    exactly the reachable set and the (u64-wrapped) sum of its NAR sizes. -/
theorem closureLoop_spec (db : PathInfoDb) (root : String) :
    ∀ fuel visited queue total,
      (∀ v ∈ visited, Reaches db root v) →
      (∀ q ∈ queue, Reaches db root q) →
      (∀ v ∈ visited, ∀ info, dbGet db v = .ok (some info) →
        ∀ r ∈ info.references, r ∈ visited ∨ r ∈ queue) →
      (root ∈ visited ∨ root ∈ queue) →
      (∀ v ∈ visited, dbIsRegistered db v = true) →
      total = (∑ v ∈ visited, narOf db v) % U64 →
      (closureLoop db fuel visited queue total = none) ∨
      (∃ e q, closureLoop db fuel visited queue total = some (.error e) ∧
          Reaches db root q ∧ dbIsRegistered db q = false ∧
          (e = "invalid store path: " ++ q ∨ e = "path not registered: " ++ q)) ∨
      (∃ c, closureLoop db fuel visited queue total = some (.ok c) ∧
          (∀ q, q ∈ c.paths ↔ Reaches db root q) ∧
          (∀ q ∈ c.paths, dbIsRegistered db q = true) ∧
          c.total_nar_size = (∑ q ∈ c.paths, narOf db q) % U64) := by
  intro fuel
  induction fuel with
  | zero =>
    intro visited queue total _ _ _ _ _ _
    left
    rw [closureLoop]
  | succ fuel ih =>
    intro visited queue total hvr hqr hclosed hroot hreg htot
    match queue with
    | [] =>
      right; right
      refine ⟨⟨visited, total⟩, by rw [closureLoop], ?_, hreg, htot⟩
      intro q
      constructor
      · exact fun hq => hvr q hq
      · intro hq
        induction hq with
        | refl =>
          rcases hroot with h | h
          · exact h
          · cases h
        | step info h1 h2 h3 ih2 =>
          rcases hclosed _ ih2 info h2 _ h3 with h | h
          · exact h
          · cases h
    | p :: rest =>
      rw [closureLoop]
      by_cases hv : p ∈ visited
      · rw [if_pos hv]
        apply ih
        · exact hvr
        · exact fun q hq => hqr q (List.mem_cons_of_mem _ hq)
        · intro v hv' info hget r hr
          rcases hclosed v hv' info hget r hr with h | h
          · exact Or.inl h
          · rcases List.mem_cons.mp h with rfl | h2
            · exact Or.inl hv
            · exact Or.inr h2
        · rcases hroot with h | h
          · exact Or.inl h
          · rcases List.mem_cons.mp h with rfl | h2
            · exact Or.inl hv
            · exact Or.inr h2
        · exact hreg
        · exact htot
      · rw [if_neg hv]
        have hpr : Reaches db root p := hqr p (List.mem_cons_self _ _)
        cases hget : dbGet db p with
        | error e =>
          obtain ⟨hp, he⟩ := dbGet_error hget
          right; left
          refine ⟨e, p, by simp only [hget], hpr, ?_, Or.inl he⟩
          simp [dbIsRegistered, hp]
        | ok oinfo =>
          cases oinfo with
          | none =>
            obtain ⟨hsh, hp, hlk⟩ := dbGet_ok_none hget
            right; left
            refine ⟨"path not registered: " ++ p, p, by simp only [hget], hpr, ?_,
              Or.inr rfl⟩
            simp [dbIsRegistered, hp, hlk]
          | some info =>
            simp only [hget]
            apply ih
            · intro v hv'
              rcases Finset.mem_insert.mp hv' with rfl | h
              · exact hpr
              · exact hvr v h
            · intro q hq
              rcases List.mem_append.mp hq with h | h
              · exact hqr q (List.mem_cons_of_mem _ h)
              · exact Reaches.step info hpr hget (List.mem_of_mem_filter h)
            · intro v hv' info' hget' r hr'
              rcases Finset.mem_insert.mp hv' with rfl | hmem
              · have hinfo : info' = info := by
                  rw [hget] at hget'
                  exact (Option.some.inj (Except.ok.inj hget')).symm
                subst hinfo
                by_cases hrv : r ∈ insert v visited
                · exact Or.inl hrv
                · refine Or.inr (List.mem_append.mpr (Or.inr ?_))
                  exact List.mem_filter.mpr ⟨hr', by simp [hrv]⟩
              · rcases hclosed v hmem info' hget' r hr' with h | h
                · exact Or.inl (Finset.mem_insert_of_mem h)
                · rcases List.mem_cons.mp h with rfl | h2
                  · exact Or.inl (Finset.mem_insert_self _ _)
                  · exact Or.inr (List.mem_append.mpr (Or.inl h2))
            · rcases hroot with h | h
              · exact Or.inl (Finset.mem_insert_of_mem h)
              · rcases List.mem_cons.mp h with rfl | h2
                · exact Or.inl (Finset.mem_insert_self _ _)
                · exact Or.inr (List.mem_append.mpr (Or.inl h2))
            · intro v hv'
              rcases Finset.mem_insert.mp hv' with rfl | h
              · exact isRegistered_of_get hget
              · exact hreg v h
            · rw [Finset.sum_insert hv]
              have hnar : narOf db p = info.nar_size := by simp [narOf, hget]
              rw [hnar, htot, Nat.mod_add_mod, Nat.add_comm]

/-- Running the BFS with the static fuel bound never exhausts the fuel. -/
theorem closureLoop_completes (db : PathInfoDb) (root : String) :
    (closureLoop db (closureFuel db root) ∅ [root] 0).isSome := by
  apply closureLoop_isSome_of_phi_lt
  · intro q hq
    rcases List.mem_singleton.mp hq with rfl
    exact Finset.mem_insert_self _ _
  · have : phi db root ∅ [root]
        = 1 + ∑ q ∈ mentioned db root, pathWeight db q := by
      simp [phi]
    unfold closureFuel
    omega

-- ═══════════ GC sweep invariants ═══════════

theorem isRegistered_false_of_lookup_none {db : PathInfoDb} {p : String} {hsh : String}
    (hp : parseStorePathHash p = some hsh) (hlk : db.lookup hsh = none) :
    dbIsRegistered db p = false := by
  simp [dbIsRegistered, hp, hlk]

theorem except_pure_eq_ok {ε α : Type} (a : α) : (pure a : Except ε α) = .ok a := rfl

theorem isRegistered_filter_mono {db : PathInfoDb} {p : String}
    (f : String × PathInfo → Bool) (h : dbIsRegistered db p = false) :
    dbIsRegistered (db.filter f) p = false := by
  cases hp : parseStorePathHash p with
  | none => simp [dbIsRegistered, hp]
  | some hsh =>
    have hn : db.lookup hsh = none := by
      cases hl : db.lookup hsh with
      | none => rfl
      | some v => simp [dbIsRegistered, hp, hl] at h
    simp [dbIsRegistered, hp, lookup_filter_none f hn]

theorem gcSweep_spec (dry_run : Bool) :
    ∀ (L : List String) (acc : GcStats × StoreFs),
      (∀ p ∈ L, (parseStorePathHash p).isSome) →
      ∃ stats fs, L.foldlM (gcSweepStep dry_run) acc = .ok (stats, fs) ∧
        stats.paths_deleted = acc.1.paths_deleted + L.length ∧
        stats.paths_kept = acc.1.paths_kept ∧
        (dry_run = true → fs = acc.2) ∧
        (dry_run = false →
          (∀ p ∈ L, dbIsRegistered fs.db p = false ∧ fs.disk.lookup p = none) ∧
          (∀ p, dbIsRegistered acc.2.db p = false → dbIsRegistered fs.db p = false) ∧
          (∀ p, acc.2.disk.lookup p = none → fs.disk.lookup p = none)) := by
  intro L
  induction L with
  | nil =>
    intro acc _
    refine ⟨acc.1, acc.2, rfl, by simp, rfl, fun _ => rfl, ?_⟩
    exact fun _ => ⟨by simp, fun p h => h, fun p h => h⟩
  | cons p L' ih =>
    intro acc hp
    have hphead : (parseStorePathHash p).isSome := hp p (List.mem_cons_self _ _)
    obtain ⟨hsh, hpe⟩ : ∃ hsh, parseStorePathHash p = some hsh := by
      cases hpp : parseStorePathHash p with
      | none => rw [hpp] at hphead; cases hphead
      | some hsh => exact ⟨hsh, rfl⟩
    cases dry_run with
    | true =>
      have hstep : gcSweepStep true acc p
          = .ok (⟨acc.1.paths_deleted + 1,
                  acc.1.bytes_freed + diskSize acc.2.disk p,
                  acc.1.paths_kept⟩, acc.2) := rfl
      obtain ⟨stats, fs, hfold, hdel, hkept, hdry, _⟩ :=
        ih (⟨acc.1.paths_deleted + 1,
             acc.1.bytes_freed + diskSize acc.2.disk p,
             acc.1.paths_kept⟩, acc.2)
          (fun q hq => hp q (List.mem_cons_of_mem _ hq))
      refine ⟨stats, fs, ?_, by simp at hdel ⊢; omega, hkept, fun _ => hdry rfl, ?_⟩
      · rw [List.foldlM_cons, hstep]
        simpa using hfold
      · intro h; cases h
    | false =>
      have hdelete : dbDelete acc.2.db p
          = .ok (acc.2.db.filter (fun e => e.1 != hsh)) := by
        simp [dbDelete, hpe]
      have hstep : gcSweepStep false acc p
          = .ok (⟨acc.1.paths_deleted + 1,
                  acc.1.bytes_freed + diskSize acc.2.disk p,
                  acc.1.paths_kept⟩,
                 ⟨acc.2.db.filter (fun e => e.1 != hsh),
                  acc.2.disk.filter (fun e => e.1 != p)⟩) := by
        simp [gcSweepStep, hdelete, except_pure_eq_ok]
        rfl
      set fs1 : StoreFs :=
        ⟨acc.2.db.filter (fun e => e.1 != hsh),
         acc.2.disk.filter (fun e => e.1 != p)⟩ with hfs1
      obtain ⟨stats, fs, hfold, hdel, hkept, _, hwet⟩ :=
        ih (⟨acc.1.paths_deleted + 1,
             acc.1.bytes_freed + diskSize acc.2.disk p,
             acc.1.paths_kept⟩, fs1)
          (fun q hq => hp q (List.mem_cons_of_mem _ hq))
      obtain ⟨hL', hmonoDb, hmonoDisk⟩ := hwet rfl
      have hpreg : dbIsRegistered fs1.db p = false :=
        isRegistered_false_of_lookup_none hpe (lookup_filter_ne_self _ _)
      have hpdisk : fs1.disk.lookup p = none := lookup_filter_ne_self _ _
      refine ⟨stats, fs, ?_, by simp at hdel ⊢; omega, hkept, ?_, fun _ => ⟨?_, ?_, ?_⟩⟩
      · rw [List.foldlM_cons, hstep]
        simpa using hfold
      · intro h; cases h
      · intro q hq
        rcases List.mem_cons.mp hq with rfl | hq'
        · exact ⟨hmonoDb q hpreg, hmonoDisk q hpdisk⟩
        · exact hL' q hq'
      · intro q hq
        exact hmonoDb q (isRegistered_filter_mono _ hq)
      · intro q hq
        exact hmonoDisk q (lookup_filter_none _ hq)

-- ═══════════ sorted-diff machinery for `plan` symmetry ═══════════

theorem bne_comm' {α : Type} [DecidableEq α] (x y : α) : (x != y) = (y != x) := by
  by_cases h : x = y
  · subst h; rfl
  · rw [bne_iff_ne.mpr h, bne_iff_ne.mpr (Ne.symm h)]

theorem filterMap_eq_filterMap_filter {α β : Type} (g : α → Option β) (l : List α) :
    l.filterMap g = (l.filter (fun x => (g x).isSome)).filterMap g := by
  induction l with
  | nil => rfl
  | cons x tl ih =>
    cases hg : g x with
    | none => simp [List.filterMap_cons, List.filter_cons, hg, ih]
    | some b => simp [List.filterMap_cons, List.filter_cons, hg, ← ih]

theorem filter_eq_of_sorted {p : String → Bool} {K₁ K₂ : List String}
    (h₁s : K₁.Sorted (· ≤ ·)) (h₁n : K₁.Nodup)
    (h₂s : K₂.Sorted (· ≤ ·)) (h₂n : K₂.Nodup)
    (h : ∀ n, p n = true → (n ∈ K₁ ↔ n ∈ K₂)) :
    K₁.filter p = K₂.filter p := by
  apply List.eq_of_perm_of_sorted ?_ (h₁s.filter p) (h₂s.filter p)
  rw [List.perm_ext_iff_of_nodup (h₁n.filter p) (h₂n.filter p)]
  intro n
  simp only [List.mem_filter]
  constructor
  · rintro ⟨hm, hp⟩; exact ⟨(h n hp).mp hm, hp⟩
  · rintro ⟨hm, hp⟩; exact ⟨(h n hp).mpr hm, hp⟩

theorem filterMap_eq_of_sorted {γ : Type} {g : String → Option γ} {K₁ K₂ : List String}
    (h₁s : K₁.Sorted (· ≤ ·)) (h₁n : K₁.Nodup)
    (h₂s : K₂.Sorted (· ≤ ·)) (h₂n : K₂.Nodup)
    (h : ∀ n, (g n).isSome → (n ∈ K₁ ↔ n ∈ K₂)) :
    K₁.filterMap g = K₂.filterMap g := by
  rw [filterMap_eq_filterMap_filter g K₁, filterMap_eq_filterMap_filter g K₂,
    filter_eq_of_sorted h₁s h₁n h₂s h₂n h]

theorem mem_pkgKeys {ps : List Package} {n : String} :
    n ∈ pkgKeys ps ↔ (pkgMap ps n).isSome := by
  unfold pkgKeys pkgMap
  rw [Finset.mem_sort, List.mem_toFinset, List.find?_isSome]
  constructor
  · intro h
    obtain ⟨p, hp, hname⟩ := List.mem_map.mp h
    exact ⟨p, List.mem_reverse.mpr hp, by simp [hname]⟩
  · rintro ⟨p, hp, hname⟩
    exact List.mem_map.mpr ⟨p, List.mem_reverse.mp hp, by simpa using hname⟩

theorem pkgKeys_sorted (ps : List Package) : (pkgKeys ps).Sorted (· ≤ ·) :=
  Finset.sort_sorted _ _

theorem pkgKeys_nodup (ps : List Package) : (pkgKeys ps).Nodup :=
  Finset.sort_nodup _ _

theorem pkgChange_exchange (a b : List Package) (n : String) :
    (pkgChange a b n).map PackageChange.exchange = pkgChange b a n := by
  unfold pkgChange
  cases ha : pkgMap a n with
  | none => cases hb : pkgMap b n <;> rfl
  | some op =>
    cases hb : pkgMap b n with
    | none => rfl
    | some np =>
      have hv : (np.version != op.version) = (op.version != np.version) :=
        bne_comm' _ _
      have hs : (np.store_path != op.store_path) = (op.store_path != np.store_path) :=
        bne_comm' _ _
      by_cases hc : (op.version != np.version || op.store_path != np.store_path) = true
      · simp [hv, hs, hc, PackageChange.exchange]
      · simp [hv, hs, hc, PackageChange.exchange]

theorem pkgChange_isSome {a b : List Package} {n : String}
    (h : (pkgChange a b n).isSome) :
    (pkgMap a n).isSome ∧ (pkgMap b n).isSome := by
  unfold pkgChange at h
  cases ha : pkgMap a n with
  | none => rw [ha] at h; cases hb : pkgMap b n <;> rw [hb] at h <;> cases h
  | some op =>
    cases hb : pkgMap b n with
    | none => rw [ha, hb] at h; cases h
    | some np => simp [ha, hb]

theorem packages_changed_exchange (a b : List Package) :
    packages_changed b a = (packages_changed a b).map PackageChange.exchange := by
  unfold packages_changed
  rw [List.map_filterMap]
  have hpt : (fun n => (pkgChange a b n).map PackageChange.exchange)
      = pkgChange b a := funext fun n => pkgChange_exchange a b n
  rw [hpt]
  apply filterMap_eq_of_sorted (pkgKeys_sorted a) (pkgKeys_nodup a)
    (pkgKeys_sorted b) (pkgKeys_nodup b)
  intro n hs
  obtain ⟨hb, ha⟩ := pkgChange_isSome hs
  rw [mem_pkgKeys, mem_pkgKeys]
  simp [ha, hb]

theorem configChange_exchange (a b : List (String × FileInfo)) (p : String) :
    (configChange a b p).map ConfigChange.exchange = configChange b a p := by
  unfold configChange
  cases ha : a.lookup p with
  | none => cases hb : b.lookup p <;> rfl
  | some oi =>
    cases hb : b.lookup p with
    | none => rfl
    | some ni =>
      have hv : (ni.blake3 != oi.blake3) = (oi.blake3 != ni.blake3) := bne_comm' _ _
      by_cases hc : (oi.blake3 != ni.blake3) = true
      · simp [hv, hc, ConfigChange.exchange]
      · simp [hv, hc, ConfigChange.exchange]

theorem configChange_isSome {a b : List (String × FileInfo)} {p : String}
    (h : (configChange a b p).isSome) :
    (a.lookup p).isSome ∧ (b.lookup p).isSome := by
  unfold configChange at h
  cases ha : a.lookup p with
  | none => rw [ha] at h; cases hb : b.lookup p <;> rw [hb] at h <;> cases h
  | some oi =>
    cases hb : b.lookup p with
    | none => rw [ha, hb] at h; cases h
    | some ni => simp [ha, hb]

theorem config_files_changed_exchange {a b : List (String × FileInfo)}
    (has : (a.map Prod.fst).Sorted (· < ·)) (hbs : (b.map Prod.fst).Sorted (· < ·)) :
    config_files_changed b a = (config_files_changed a b).map ConfigChange.exchange := by
  unfold config_files_changed
  rw [List.map_filterMap]
  have hpt : (fun p => (configChange a b p).map ConfigChange.exchange)
      = configChange b a := funext fun p => configChange_exchange a b p
  rw [hpt]
  apply filterMap_eq_of_sorted (has.le_of_lt) (has.nodup) (hbs.le_of_lt) (hbs.nodup)
  intro p hs
  obtain ⟨ha, hb⟩ := configChange_isSome hs
  rw [← lookup_isSome_iff_mem_keys, ← lookup_isSome_iff_mem_keys]
  simp [ha, hb]

theorem userDiffers_comm (ou nu : User) : userDiffers ou nu = userDiffers nu ou := by
  unfold userDiffers
  rw [bne_comm' ou.uid, bne_comm' ou.gid, bne_comm' ou.home, bne_comm' ou.shell]

theorem userChanged_comm (a b : List (String × User)) (n : String) :
    userChanged b a n = userChanged a b n := by
  unfold userChanged
  cases ha : a.lookup n <;> cases hb : b.lookup n <;> simp [userDiffers_comm]

theorem userChanged_true {a b : List (String × User)} {n : String}
    (h : userChanged a b n = true) :
    (a.lookup n).isSome ∧ (b.lookup n).isSome := by
  unfold userChanged at h
  cases ha : a.lookup n with
  | none => rw [ha] at h; cases hb : b.lookup n <;> rw [hb] at h <;> cases h
  | some ou =>
    cases hb : b.lookup n with
    | none => rw [ha, hb] at h; cases h
    | some nu => simp [ha, hb]

theorem users_changed_comm {a b : List (String × User)}
    (has : (a.map Prod.fst).Sorted (· < ·)) (hbs : (b.map Prod.fst).Sorted (· < ·)) :
    users_changed b a = users_changed a b := by
  unfold users_changed
  have hpt : userChanged b a = userChanged a b := funext fun n => userChanged_comm a b n
  rw [hpt]
  apply filter_eq_of_sorted (has.le_of_lt) (has.nodup) (hbs.le_of_lt) (hbs.nodup)
  intro n hn
  obtain ⟨ha, hb⟩ := userChanged_true hn
  rw [← lookup_isSome_iff_mem_keys, ← lookup_isSome_iff_mem_keys]
  simp [ha, hb]

-- ═══════════ claim theorems ═══════════

/-- C1: for every package list and every starting state in which the
    profile directory exists, if the final rename of the atomic swap
    fails after the existing profile was moved to `bin.old`, then
    `atomic_profile_swap` renames `bin.old` back to `bin` (restoring the
    original profile directory unchanged), removes `bin.new` and the
    staging directory, and returns an error. -/
theorem atomic_profile_swap_rollback (fsBins : String → List String)
    (packages : List Package) (s : SwapState) (d : ProfileDir)
    (hbin : s.bin = some d) :
    (atomic_profile_swap fsBins packages true s).1 = .error "atomic swap failed" ∧
    (atomic_profile_swap fsBins packages true s).2.bin = some d ∧
    (atomic_profile_swap fsBins packages true s).2.bin_new = none ∧
    (atomic_profile_swap fsBins packages true s).2.bin_old = none ∧
    (atomic_profile_swap fsBins packages true s).2.staging = none := by
  simp [atomic_profile_swap, hbin]

theorem atomic_profile_swap_rollback_witness :
    (SwapState.mk none none none (some [("ls", "/nix/bin/ls")])).bin
        = some [("ls", "/nix/bin/ls")] ∧
    ((atomic_profile_swap (fun _ => []) [] true
        (SwapState.mk none none none (some [("ls", "/nix/bin/ls")]))).1
          = .error "atomic swap failed" ∧
     (atomic_profile_swap (fun _ => []) [] true
        (SwapState.mk none none none (some [("ls", "/nix/bin/ls")]))).2.bin
          = some [("ls", "/nix/bin/ls")] ∧
     (atomic_profile_swap (fun _ => []) [] true
        (SwapState.mk none none none (some [("ls", "/nix/bin/ls")]))).2.bin_new
          = none ∧
     (atomic_profile_swap (fun _ => []) [] true
        (SwapState.mk none none none (some [("ls", "/nix/bin/ls")]))).2.bin_old
          = none ∧
     (atomic_profile_swap (fun _ => []) [] true
        (SwapState.mk none none none (some [("ls", "/nix/bin/ls")]))).2.staging
          = none) :=
  ⟨rfl, atomic_profile_swap_rollback (fun _ => []) [] _ _ rfl⟩

/-- C2: for every database and root, if the root and everything
    transitively reachable through references is registered,
    `compute_closure` returns exactly the set of reachable paths
    (including the root; a self-reference is counted once) and a total
    NAR size equal to the (u64) sum of `nar_size` over the distinct
    paths of that set; if some reachable path is not registered it fails
    with an error naming an unregistered reachable path. -/
theorem compute_closure_correct (db : PathInfoDb) (root : String) :
    ((∀ q, Reaches db root q → dbIsRegistered db q = true) →
      ∃ c, compute_closure db root = .ok c ∧
        (∀ q, q ∈ c.paths ↔ Reaches db root q) ∧
        c.total_nar_size = (∑ q ∈ c.paths, narOf db q) % U64) ∧
    ((∃ q, Reaches db root q ∧ dbIsRegistered db q = false) →
      ∃ q e, Reaches db root q ∧ dbIsRegistered db q = false ∧
        compute_closure db root = .error e ∧
        (e = "invalid store path: " ++ q ∨ e = "path not registered: " ++ q)) := by
  rcases closureLoop_spec db root (closureFuel db root) ∅ [root] 0
      (fun v hv => absurd hv (Finset.not_mem_empty v))
      (fun q hq => by rcases List.mem_singleton.mp hq with rfl; exact Reaches.refl)
      (fun v hv => absurd hv (Finset.not_mem_empty v))
      (Or.inr (List.mem_cons_self root []))
      (fun v hv => absurd hv (Finset.not_mem_empty v))
      (by simp)
    with hnone | ⟨e, q, heq, hq1, hq2, hq3⟩ | ⟨c, heq, hiff, hregc, htotc⟩
  · have hs := closureLoop_completes db root
    rw [hnone] at hs
    cases hs
  · constructor
    · intro hall
      exfalso
      have h1 := hall q hq1
      rw [hq2] at h1
      exact absurd h1 (by decide)
    · intro _
      refine ⟨q, e, hq1, hq2, ?_, hq3⟩
      unfold compute_closure
      rw [heq]
      rfl
  · constructor
    · intro _
      refine ⟨c, ?_, hiff, htotc⟩
      unfold compute_closure
      rw [heq]
      rfl
    · rintro ⟨q, hq, hnreg⟩
      exfalso
      have hmem := (hiff q).mpr hq
      have h1 := hregc q hmem
      rw [hnreg] at h1
      exact absurd h1 (by decide)

theorem compute_closure_correct_witness :
    (∃ q, Reaches [] samplePathA q ∧ dbIsRegistered [] q = false) ∧
    (∃ q e, Reaches [] samplePathA q ∧ dbIsRegistered [] q = false ∧
      compute_closure [] samplePathA = .error e ∧
      (e = "invalid store path: " ++ q ∨ e = "path not registered: " ++ q)) :=
  ⟨⟨samplePathA, Reaches.refl, by decide⟩,
   (compute_closure_correct [] samplePathA).2
     ⟨samplePathA, Reaches.refl, by decide⟩⟩

/-- C3: for every store state whose database entries are keyed by the
    digest of their store path, garbage collection with no GC roots
    reports `paths_deleted` equal to the number of registered paths and
    `paths_kept = 0`; when not a dry run it deletes every registered
    path's on-disk body and pathinfo entry. -/
theorem garbage_collect_no_roots (s : StoreFs) (dry_run : Bool)
    (hwf : ∀ e ∈ s.db, parseStorePathHash e.2.store_path = some e.1) :
    ∃ stats fs, garbage_collect s [] dry_run = .ok (stats, fs) ∧
      stats.paths_deleted = (allPathsSet s.db).card ∧
      stats.paths_kept = 0 ∧
      (dry_run = false → ∀ p ∈ allPathsSet s.db,
        dbIsRegistered fs.db p = false ∧ fs.disk.lookup p = none) := by
  have hlive : compute_live_set s.db [] = ∅ := rfl
  have hparse : ∀ p ∈ (allPathsSet s.db \ compute_live_set s.db []).sort (· ≤ ·),
      (parseStorePathHash p).isSome := by
    intro p hp
    have hmem : p ∈ allPathsSet s.db := (Finset.mem_sdiff.mp (Finset.mem_sort _ |>.mp hp)).1
    obtain ⟨e, he, hep⟩ := List.mem_map.mp (List.mem_toFinset.mp hmem)
    rw [← hep, hwf e he]
    rfl
  unfold garbage_collect
  by_cases hd : allPathsSet s.db \ compute_live_set s.db [] = ∅
  · rw [if_pos hd]
    have hall : allPathsSet s.db = ∅ := by
      rw [hlive, Finset.sdiff_empty] at hd
      exact hd
    refine ⟨_, s, rfl, ?_, ?_, ?_⟩
    · simp [hall]
    · simp [hlive]
    · intro _ p hp
      rw [hall] at hp
      exact absurd hp (Finset.not_mem_empty p)
  · rw [if_neg hd]
    obtain ⟨stats, fs, hfold, hdel, hkept, _, hwet⟩ :=
      gcSweep_spec dry_run ((allPathsSet s.db \ compute_live_set s.db []).sort (· ≤ ·))
        (⟨0, 0, (compute_live_set s.db []).card⟩, s) hparse
    refine ⟨stats, fs, hfold, ?_, ?_, ?_⟩
    · rw [hdel, Finset.length_sort]
      simp [hlive]
    · rw [hkept]
      simp [hlive]
    · intro hdry p hp
      have hp' : p ∈ (allPathsSet s.db \ compute_live_set s.db []).sort (· ≤ ·) := by
        rw [Finset.mem_sort]
        rw [hlive, Finset.sdiff_empty]
        exact hp
      exact (hwet hdry).1 p hp'

theorem garbage_collect_no_roots_witness :
    (∀ e ∈ sampleFs.db, parseStorePathHash e.2.store_path = some e.1) ∧
    (∃ stats fs, garbage_collect sampleFs [] false = .ok (stats, fs) ∧
      stats.paths_deleted = (allPathsSet sampleFs.db).card ∧
      stats.paths_kept = 0 ∧
      (false = false → ∀ p ∈ allPathsSet sampleFs.db,
        dbIsRegistered fs.db p = false ∧ fs.disk.lookup p = none)) :=
  ⟨by decide, garbage_collect_no_roots sampleFs false (by decide)⟩

/-- C4: after a non-dry-run switch, the manifest stored at the
    current-manifest path has generation id equal to
    `next_generation_id(gen_dir, current)` computed before the call,
    which is strictly greater than the pre-switch current generation
    id. -/
theorem switch_assigns_next_generation_id (s : SystemState) (m : Manifest)
    (descr : Option String) (now : String) :
    (switch s m descr now).current.generation.id
        = next_generation_id s.gens s.current ∧
    s.current.generation.id < next_generation_id s.gens s.current := by
  constructor
  · rfl
  · exact Nat.lt_succ_of_le (le_max_right _ _)

/-- C5: for every pair of manifests, `plan(a, b)` and `plan(b, a)` have
    their added and removed sets swapped across every facet (packages,
    config files, services, users), and their changed sets are identical
    up to exchanging the old and new fields of each change record. -/
theorem plan_symmetry (fsBins : String → List String) (a b : Manifest)
    (haf : (a.files.map Prod.fst).Sorted (· < ·))
    (hbf : (b.files.map Prod.fst).Sorted (· < ·))
    (hau : (a.users.map Prod.fst).Sorted (· < ·))
    (hbu : (b.users.map Prod.fst).Sorted (· < ·)) :
    (plan fsBins a b).packages_added = (plan fsBins b a).packages_removed ∧
    (plan fsBins a b).packages_removed = (plan fsBins b a).packages_added ∧
    (plan fsBins b a).packages_changed
        = ((plan fsBins a b).packages_changed).map PackageChange.exchange ∧
    (plan fsBins a b).config_files_added = (plan fsBins b a).config_files_removed ∧
    (plan fsBins a b).config_files_removed = (plan fsBins b a).config_files_added ∧
    (plan fsBins b a).config_files_changed
        = ((plan fsBins a b).config_files_changed).map ConfigChange.exchange ∧
    (plan fsBins a b).services_added = (plan fsBins b a).services_removed ∧
    (plan fsBins a b).services_removed = (plan fsBins b a).services_added ∧
    (plan fsBins a b).users_added = (plan fsBins b a).users_removed ∧
    (plan fsBins a b).users_removed = (plan fsBins b a).users_added ∧
    (plan fsBins b a).users_changed = (plan fsBins a b).users_changed :=
  ⟨rfl, rfl, packages_changed_exchange a.packages b.packages, rfl, rfl,
   config_files_changed_exchange haf hbf, rfl, rfl, rfl, rfl,
   users_changed_comm hau hbu⟩

theorem plan_symmetry_witness :
    ((sampleManifestA.files.map Prod.fst).Sorted (· < ·) ∧
     (sampleManifestB.files.map Prod.fst).Sorted (· < ·) ∧
     (sampleManifestA.users.map Prod.fst).Sorted (· < ·) ∧
     (sampleManifestB.users.map Prod.fst).Sorted (· < ·)) ∧
    ((plan (fun _ => []) sampleManifestA sampleManifestB).packages_added
        = (plan (fun _ => []) sampleManifestB sampleManifestA).packages_removed ∧
     (plan (fun _ => []) sampleManifestA sampleManifestB).packages_removed
        = (plan (fun _ => []) sampleManifestB sampleManifestA).packages_added ∧
     (plan (fun _ => []) sampleManifestB sampleManifestA).packages_changed
        = ((plan (fun _ => []) sampleManifestA sampleManifestB).packages_changed).map
            PackageChange.exchange ∧
     (plan (fun _ => []) sampleManifestA sampleManifestB).config_files_added
        = (plan (fun _ => []) sampleManifestB sampleManifestA).config_files_removed ∧
     (plan (fun _ => []) sampleManifestA sampleManifestB).config_files_removed
        = (plan (fun _ => []) sampleManifestB sampleManifestA).config_files_added ∧
     (plan (fun _ => []) sampleManifestB sampleManifestA).config_files_changed
        = ((plan (fun _ => []) sampleManifestA sampleManifestB).config_files_changed).map
            ConfigChange.exchange ∧
     (plan (fun _ => []) sampleManifestA sampleManifestB).services_added
        = (plan (fun _ => []) sampleManifestB sampleManifestA).services_removed ∧
     (plan (fun _ => []) sampleManifestA sampleManifestB).services_removed
        = (plan (fun _ => []) sampleManifestB sampleManifestA).services_added ∧
     (plan (fun _ => []) sampleManifestA sampleManifestB).users_added
        = (plan (fun _ => []) sampleManifestB sampleManifestA).users_removed ∧
     (plan (fun _ => []) sampleManifestA sampleManifestB).users_removed
        = (plan (fun _ => []) sampleManifestB sampleManifestA).users_added ∧
     (plan (fun _ => []) sampleManifestB sampleManifestA).users_changed
        = (plan (fun _ => []) sampleManifestA sampleManifestB).users_changed) :=
  ⟨⟨by simp [sampleManifestA], by simp [sampleManifestB],
    by simp [sampleManifestA], by simp [sampleManifestB]⟩,
   plan_symmetry (fun _ => []) sampleManifestA sampleManifestB
     (by simp [sampleManifestA]) (by simp [sampleManifestB])
     (by simp [sampleManifestA]) (by simp [sampleManifestB])⟩

/-- C6: for every syntactically valid store path `p` and `PathInfo`
    record for `p`: after `register(info)`, `get(p)` returns
    `Some(info)`; after a subsequent `delete(p)`, `is_registered(p)` is
    false; and deleting again still succeeds and is a no-op (delete is
    idempotent). -/
theorem pathinfo_register_get_delete (db : PathInfoDb) (info : PathInfo) (p : String)
    (hp : info.store_path = p) (hv : (parseStorePathHash p).isSome) :
    ∃ db1, dbRegister db info = .ok db1 ∧ dbGet db1 p = .ok (some info) ∧
      ∃ db2, dbDelete db1 p = .ok db2 ∧ dbIsRegistered db2 p = false ∧
        dbDelete db2 p = .ok db2 := by
  obtain ⟨h, hph⟩ : ∃ h, parseStorePathHash p = some h := by
    cases hq : parseStorePathHash p with
    | none => rw [hq] at hv; cases hv
    | some h => exact ⟨h, rfl⟩
  subst hp
  refine ⟨(h, info) :: db.filter (fun e => e.1 != h), ?_, ?_,
    db.filter (fun e => e.1 != h), ?_, ?_, ?_⟩
  · simp [dbRegister, hph]
  · simp [dbGet, hph, List.lookup]
  · simp [dbDelete, hph, List.filter_cons, filter_ne_idem]
  · simp [dbIsRegistered, hph, lookup_filter_ne_self]
  · simp [dbDelete, hph, filter_ne_idem]

theorem pathinfo_register_get_delete_witness :
    (sampleInfoA.store_path = samplePathA ∧
      (parseStorePathHash samplePathA).isSome) ∧
    (∃ db1, dbRegister [] sampleInfoA = .ok db1 ∧
      dbGet db1 samplePathA = .ok (some sampleInfoA) ∧
      ∃ db2, dbDelete db1 samplePathA = .ok db2 ∧
        dbIsRegistered db2 samplePathA = false ∧
        dbDelete db2 samplePathA = .ok db2) :=
  ⟨⟨rfl, by decide⟩,
   pathinfo_register_get_delete [] sampleInfoA samplePathA rfl (by decide)⟩

/-- C7: counter-evaluation of the claim that a path starting with a
    separator makes `openat` ignore the dirfd's cached path.  `openat`
    trims all slashes from the path before testing `starts_with('/')`,
    so the test can never succeed: with a handle whose cached path is
    `cache` and path argument `/abs`, the resolved full path is
    `cache/abs` (the cached path is still prefixed), not `abs`. -/
theorem openat_leading_separator_not_ignored :
    openat_full_path [(3, ⟨1, 0, true, false, "cache", 0, 0⟩)] 3 "/abs"
      = "cache/abs" := by decide

/-- C8: for every FUSE round trip, if the device-reported written count
    is smaller than a FUSE response header the transport fails with
    `ShortResponse`; otherwise it returns exactly the bytes the device
    wrote — a buffer whose length equals the written count. -/
theorem fuse_request_inner_returns_written (request : List Nat) (dev : FuseDevice)
    (hlen : dev.written ≤ dev.buf.length) :
    (dev.written < FUSE_OUT_HEADER_SIZE →
      fuse_request_inner request dev
        = some (.error (.ShortResponse dev.written))) ∧
    (FUSE_OUT_HEADER_SIZE ≤ dev.written →
      ∃ out, fuse_request_inner request dev = some (.ok out) ∧
        out.length = dev.written ∧ out = dev.buf.take dev.written) := by
  constructor
  · intro h
    simp [fuse_request_inner, h]
  · intro h
    have hnl : ¬ dev.written < FUSE_OUT_HEADER_SIZE := not_lt.mpr h
    refine ⟨dev.buf.take dev.written, ?_, ?_, rfl⟩
    · simp [fuse_request_inner, hnl, hlen]
    · rw [List.length_take]
      exact Nat.min_eq_left hlen

theorem fuse_request_inner_returns_written_witness :
    ((FuseDevice.mk 20 (List.replicate 32 7)).written
        ≤ (FuseDevice.mk 20 (List.replicate 32 7)).buf.length) ∧
    (((FuseDevice.mk 20 (List.replicate 32 7)).written < FUSE_OUT_HEADER_SIZE →
      fuse_request_inner [1] (FuseDevice.mk 20 (List.replicate 32 7))
        = some (.error (.ShortResponse
            (FuseDevice.mk 20 (List.replicate 32 7)).written))) ∧
     (FUSE_OUT_HEADER_SIZE ≤ (FuseDevice.mk 20 (List.replicate 32 7)).written →
      ∃ out, fuse_request_inner [1] (FuseDevice.mk 20 (List.replicate 32 7))
          = some (.ok out) ∧
        out.length = (FuseDevice.mk 20 (List.replicate 32 7)).written ∧
        out = (FuseDevice.mk 20 (List.replicate 32 7)).buf.take
            (FuseDevice.mk 20 (List.replicate 32 7)).written)) :=
  ⟨by decide, fuse_request_inner_returns_written [1] _ (by decide)⟩

/-- C9: `compute_closure` terminates on every finite database and root,
    including cyclic or self-referencing reference graphs: the fuelled
    BFS loop completes (returns a result rather than exhausting its
    fuel) at the static fuel bound. -/
theorem compute_closure_terminates (db : PathInfoDb) (root : String) :
    ∃ r, closureLoop db (closureFuel db root) ∅ [root] 0 = some r := by
  have h := closureLoop_completes db root
  cases hc : closureLoop db (closureFuel db root) ∅ [root] 0 with
  | none => rw [hc] at h; cases h
  | some r => exact ⟨r, rfl⟩

/-- C10: for every scheme read on a valid non-directory handle, the
    returned count is at most the caller's buffer length and only that
    prefix of the buffer is written, even when the FUSE session returns
    more data than requested. -/
theorem scheme_read_bounded (handles : List (Nat × Handle)) (id : Nat)
    (buf : List Nat) (offset : Nat)
    (sess_read : Nat → Nat → Nat → Nat → Option (List Nat))
    (h : Handle) (data : List Nat)
    (hh : handles.lookup id = some h) (hdir : h.is_dir = false)
    (hs : sess_read h.nodeid h.fh offset buf.length = some data) :
    ∃ n out, scheme_read handles id buf offset sess_read = .ok (n, out) ∧
      n ≤ buf.length ∧ out.length = buf.length ∧
      ∀ i, n ≤ i → out.get? i = buf.get? i := by
  refine ⟨min data.length buf.length,
    data.take (min data.length buf.length)
      ++ buf.drop (min data.length buf.length),
    ?_, Nat.min_le_right _ _, ?_, ?_⟩
  · simp [scheme_read, hh, hdir, hs]
  · rw [List.length_append, List.length_take, List.length_drop]
    have h1 := Nat.min_le_right data.length buf.length
    have h2 := Nat.min_le_left data.length buf.length
    omega
  · intro i hi
    have hlt : (data.take (min data.length buf.length)).length
        = min data.length buf.length := by
      rw [List.length_take]
      exact Nat.min_eq_left (Nat.min_le_left _ _)
    rw [List.get?_append_right (by rw [hlt]; exact hi), hlt, List.get?_drop]
    congr 1
    omega

theorem scheme_read_bounded_witness :
    (List.lookup 1 [(1, Handle.mk 2 3 false false "f" 0 0)]
        = some (Handle.mk 2 3 false false "f" 0 0) ∧
     (Handle.mk 2 3 false false "f" 0 0).is_dir = false ∧
     (fun _ _ _ _ => some [7, 8, 9]) (Handle.mk 2 3 false false "f" 0 0).nodeid
        (Handle.mk 2 3 false false "f" 0 0).fh 0 ([0, 0] : List Nat).length
        = some [7, 8, 9]) ∧
    (∃ n out, scheme_read [(1, Handle.mk 2 3 false false "f" 0 0)] 1 [0, 0] 0
        (fun _ _ _ _ => some [7, 8, 9]) = .ok (n, out) ∧
      n ≤ ([0, 0] : List Nat).length ∧ out.length = ([0, 0] : List Nat).length ∧
      ∀ i, n ≤ i → out.get? i = ([0, 0] : List Nat).get? i) :=
  ⟨⟨by decide, rfl, rfl⟩,
   scheme_read_bounded [(1, Handle.mk 2 3 false false "f" 0 0)] 1 [0, 0] 0
     (fun _ _ _ _ => some [7, 8, 9]) (Handle.mk 2 3 false false "f" 0 0)
     [7, 8, 9] (by decide) rfl rfl⟩

end SnixRedox
